import Mathlib

/-!
Verification of the trading-strategy core of the token analyzer.

The TypeScript source operates on IEEE-754 doubles; we idealize numbers as
rationals (`ℚ`).  JavaScript expressions that can produce `NaN` or read an
out-of-range array element (which yields `undefined`, behaving as `NaN` in
arithmetic and making every comparison false) are modelled with `Option ℚ`,
where `none` stands for `NaN`/`undefined`.  `Math.sqrt` has no exact rational
counterpart, so every Bollinger-band definition is parameterized by a function
`sq : ℚ → ℚ` standing for the square-root routine; no theorem below depends on
any property of `sq`.  A JavaScript `TypeError` (property access on
`undefined`) is modelled by an `Option` result.
-/

set_option maxRecDepth 8000

namespace TokenAnalyzer

/-! ## Data model -/

structure TokenData where
  timestamp : ℤ
  price : ℚ
  volume : ℚ
deriving DecidableEq, Repr

inductive Recommendation
  | BUY
  | SELL
  | HOLD
deriving DecidableEq, Repr

structure StrategySignal where
  currentPrice : ℚ
  recommendation : Recommendation
  confidence : ℤ
  reasons : List String
  crossSignals : Bool × Bool
deriving DecidableEq, Repr

/-! ## JavaScript number semantics

`none` models `NaN` (and `undefined` read from an array, which coerces to
`NaN` in arithmetic).  Arithmetic propagates `NaN`; every comparison
involving `NaN` is false. -/

def jsAdd : Option ℚ → Option ℚ → Option ℚ
  | some x, some y => some (x + y)
  | _, _ => none

def jsSub : Option ℚ → Option ℚ → Option ℚ
  | some x, some y => some (x - y)
  | _, _ => none

def jsMul : Option ℚ → Option ℚ → Option ℚ
  | some x, some y => some (x * y)
  | _, _ => none

def jsLt : Option ℚ → Option ℚ → Bool
  | some x, some y => decide (x < y)
  | _, _ => false

def jsLe : Option ℚ → Option ℚ → Bool
  | some x, some y => decide (x ≤ y)
  | _, _ => false

def jsGt (a b : Option ℚ) : Bool := jsLt b a

def jsGe (a b : Option ℚ) : Bool := jsLe b a

/-- `arr[i]` for a JavaScript index that may be negative (e.g. `arr[len - 2]`
on a one-element array): a negative or out-of-range index yields
`undefined`, i.e. `none`. -/
def jsIdx (l : List (Option ℚ)) (i : ℤ) : Option ℚ :=
  if i < 0 then none else (l.get? i.toNat).join

/-- `values.slice(0, periods).reduce((a, b) => a + b, 0)` over JS numbers. -/
def jsSum (xs : List (Option ℚ)) : Option ℚ := xs.foldl jsAdd (some 0)

/-! ## Indicator library (embedded from `src/src/index.ts`) -/

/-- Loop body of `calculateSmoothedMovingAverage`:
`sum = ((smoothedMA[last] * (periods - 1)) + values[i]) / periods`. -/
def smoothedStep (periods : ℕ) (prev : ℚ) : List ℚ → List ℚ
  | [] => []
  | v :: rest =>
    let cur := (prev * ((periods : ℚ) - 1) + v) / (periods : ℚ)
    cur :: smoothedStep periods cur rest

/-- `calculateSmoothedMovingAverage(values, periods)`: seed is the plain mean
of the first `periods` values, then the Wilder-style recurrence. -/
def calculateSmoothedMovingAverage (values : List ℚ) (periods : ℕ) : List ℚ :=
  let seed := (values.take periods).sum / (periods : ℚ)
  seed :: smoothedStep periods seed (values.drop periods)

/-- `changes`: per-step price difference, `0` at index 0
(`prices.map((price, i) => i > 0 ? price - prices[i-1] : 0)`). -/
def rsiChanges (prices : List ℚ) : List ℚ :=
  match prices with
  | [] => []
  | p :: rest => 0 :: List.zipWith (fun cur prev => cur - prev) rest (p :: rest)

/-- `gains`: positive changes, else 0. -/
def rsiGains (prices : List ℚ) : List ℚ :=
  (rsiChanges prices).map (fun change => max change 0)

/-- `losses`: negated negative changes, else 0. -/
def rsiLosses (prices : List ℚ) : List ℚ :=
  (rsiChanges prices).map (fun change => max (-change) 0)

/-- `calculateRSI(periods)`: RSI over the price series of `data`. -/
def calculateRSI (data : List TokenData) (periods : ℕ) : List ℚ :=
  let prices := data.map (·.price)
  let avgGain := calculateSmoothedMovingAverage (rsiGains prices) periods
  let avgLoss := calculateSmoothedMovingAverage (rsiLosses prices) periods
  List.zipWith
    (fun ag al => if al = 0 then 100 else 100 - 100 / (1 + ag / al)) avgGain avgLoss

/-- Loop body of the EMA routines:
`currentEMA = currentPrice * alpha + previousEMA * (1 - alpha)`. -/
def emaStep (alpha : ℚ) (prev : ℚ) : List ℚ → List ℚ
  | [] => []
  | p :: rest =>
    let cur := p * alpha + prev * (1 - alpha)
    cur :: emaStep alpha cur rest

/-- `calculateExponentialMovingAverages(prices, periods)`: seed is
`prices.slice(0, periods)` summed and divided by `periods`, followed by the
EMA recurrence with `alpha = 2 / (periods + 1)`. -/
def calculateExponentialMovingAverages (prices : List ℚ) (periods : ℕ) : List ℚ :=
  let alpha : ℚ := 2 / ((periods : ℚ) + 1)
  let seed : ℚ := (prices.take periods).sum / (periods : ℚ)
  seed :: emaStep alpha seed (prices.drop periods)

/-- `calculateSimpleMovingAverage(prices, periods)` (default `periods = 50`):
sum of the first `periods` entries divided by `periods`. -/
def calculateSimpleMovingAverage (prices : List ℚ) (periods : ℕ) : ℚ :=
  (prices.take periods).sum / (periods : ℚ)

/-- `calculateEMA(periods)` (default 50): seeds with
`calculateSimpleMovingAverage(prices.slice(0, periods))`, whose own `periods`
argument is left at its default `50`. -/
def calculateEMA (data : List TokenData) (periods : ℕ) : List ℚ :=
  let prices := data.map (·.price)
  let alpha : ℚ := 2 / ((periods : ℚ) + 1)
  let seed := calculateSimpleMovingAverage (prices.take periods) 50
  seed :: emaStep alpha seed (prices.drop periods)

/-! The same EMA routine applied to an array that may contain `NaN`
(`calculateExponentialMovingAverages` is invoked on `macdLine`). -/

def emaStepJS (alpha : ℚ) (prev : Option ℚ) : List (Option ℚ) → List (Option ℚ)
  | [] => []
  | p :: rest =>
    let cur := jsAdd (jsMul p (some alpha)) (jsMul prev (some (1 - alpha)))
    cur :: emaStepJS alpha cur rest

def emaJS (xs : List (Option ℚ)) (periods : ℕ) : List (Option ℚ) :=
  let alpha : ℚ := 2 / ((periods : ℚ) + 1)
  let seed := (jsSum (xs.take periods)).map (· / (periods : ℚ))
  seed :: emaStepJS alpha seed (xs.drop periods)

structure MACDResult where
  macdLine : List (Option ℚ)
  signalLine : List (Option ℚ)
deriving DecidableEq, Repr

/-- `calculateMACD(shortPeriod, longPeriod, signalPeriod)`:
`macdLine = shortEMA.map((sEMA, i) => sEMA - longEMA[i])` — the two EMA
output arrays are subtracted at the same raw output index, with no
reconciliation of their different starting offsets; `longEMA[i]` is
`undefined` (hence the entry is `NaN`) once `i` reaches `longEMA.length`.
`signalLine` is the EMA routine applied to `macdLine`. -/
def calculateMACD (data : List TokenData)
    (shortPeriod longPeriod signalPeriod : ℕ) : MACDResult :=
  let prices := data.map (·.price)
  let shortEMA := calculateExponentialMovingAverages prices shortPeriod
  let longEMA := calculateExponentialMovingAverages prices longPeriod
  let macdLine := shortEMA.enum.map (fun is => jsSub (some is.2) (longEMA.get? is.1))
  let signalLine := emaJS macdLine signalPeriod
  ⟨macdLine, signalLine⟩

/-- `prices.slice(Math.max(0, i - periods + 1), i + 1)`: the trailing window
ending at index `i`, shrinking near the start of the series. -/
def subsetAt (prices : List ℚ) (periods i : ℕ) : List ℚ :=
  (prices.drop (i + 1 - periods)).take (i + 1 - (i + 1 - periods))

/-- Population variance of a window, as computed inline in
`calculateBollingerBands` (division by the subset length, not length - 1). -/
def populationVariance (subset : List ℚ) : ℚ :=
  let mean := subset.sum / (subset.length : ℚ)
  (subset.map (fun b => (b - mean) ^ 2)).sum / (subset.length : ℚ)

/-- `standardDeviations`: one value per input index `i`, the square root of
the population variance of the trailing window ending at `i`. -/
def bollingerStdDevs (sq : ℚ → ℚ) (prices : List ℚ) (periods : ℕ) : List ℚ :=
  prices.enum.map (fun ip => sq (populationVariance (subsetAt prices periods ip.1)))

/-- `calculateMovingAverage(prices, periods)`: the loop
`for (i = periods - 1; i < prices.length; i++)` pushes the mean of the full
window `prices.slice(i - periods + 1, i + 1)`; output index `j`
corresponds to input index `j + periods - 1`. -/
def calculateMovingAverage (prices : List ℚ) (periods : ℕ) : List ℚ :=
  (List.range (prices.length + 1 - periods)).map
    (fun j => ((prices.drop j).take periods).sum / (periods : ℚ))

structure BollingerBands where
  middleBand : List ℚ
  upperBand : List ℚ
  lowerBand : List ℚ
deriving DecidableEq, Repr

/-- `calculateBollingerBands(periods, standardDeviation)`:
`upperBand = middleBand.map((mb, i) => mb + standardDeviations[i] * standardDeviation)`.
Since `middleBand` is the shorter list and `standardDeviations` has one entry
per input index, the `map` with indexing is a `zipWith` truncated to
`middleBand`'s length. -/
def calculateBollingerBands (sq : ℚ → ℚ) (data : List TokenData)
    (periods : ℕ) (standardDeviation : ℚ) : BollingerBands :=
  let prices := data.map (·.price)
  let middleBand := calculateMovingAverage prices periods
  let standardDeviations := bollingerStdDevs sq prices periods
  let upperBand :=
    List.zipWith (fun mb sd => mb + sd * standardDeviation) middleBand standardDeviations
  let lowerBand :=
    List.zipWith (fun mb sd => mb - sd * standardDeviation) middleBand standardDeviations
  ⟨middleBand, upperBand, lowerBand⟩

/-- Loop body of `calculateOBV`: add the volume on a price rise, subtract it
on a fall, carry the previous value otherwise. -/
def obvStep (prevObv prevPrice : ℚ) : List TokenData → List ℚ
  | [] => []
  | d :: rest =>
    let cur :=
      if prevPrice < d.price then prevObv + d.volume
      else if d.price < prevPrice then prevObv - d.volume
      else prevObv
    cur :: obvStep cur d.price rest

/-- The OBV sequence for a non-empty series, seeded with the first volume. -/
def obvList (d : TokenData) (rest : List TokenData) : List ℚ :=
  d.volume :: obvStep d.volume d.price rest

/-- `calculateOBV()`: on an empty series the seed `volumes[0]` is
`undefined`, so the result is the one-element list `[undefined]`. -/
def calculateOBV (data : List TokenData) : List (Option ℚ) :=
  match data with
  | [] => [none]
  | d :: rest => (obvList d rest).map some

/-- The price series extracted from the observations
(`this.data.map(d => d.price)`). -/
def pricesOf (data : List TokenData) : List ℚ := data.map (·.price)

/-- The EMA series of the price series of `data`, as computed inside
`detectCrosses`, `getCrossAnalysis` and `calculateMACD`. -/
def emaOf (data : List TokenData) (periods : ℕ) : List ℚ :=
  calculateExponentialMovingAverages (pricesOf data) periods

/-- `detectCrosses(shortPeriod, longPeriod)` (defaults 50 and 200): compares
only the last two points of the two EMA series, reporting
`(goldenCross, deathCross)`; `(false, false)` when either EMA has fewer than
two points. -/
def detectCrosses (data : List TokenData) (shortPeriod longPeriod : ℕ) : Bool × Bool :=
  let shortTermEMA := emaOf data shortPeriod
  let longTermEMA := emaOf data longPeriod
  if shortTermEMA.length < 2 ∨ longTermEMA.length < 2 then
    (false, false)
  else
    let s0 := shortTermEMA.getD (shortTermEMA.length - 2) 0
    let s1 := shortTermEMA.getD (shortTermEMA.length - 1) 0
    let l0 := longTermEMA.getD (longTermEMA.length - 2) 0
    let l1 := longTermEMA.getD (longTermEMA.length - 1) 0
    (decide (s0 ≤ l0) && decide (l1 < s1), decide (l0 ≤ s0) && decide (s1 < l1))

/-- The constructor's `data.sort((a, b) => a.timestamp - b.timestamp)`:
ECMAScript guarantees a stable sort, so this is the stable sort by
timestamp. -/
def normalizeData (data : List TokenData) : List TokenData :=
  data.mergeSort (fun a b => decide (a.timestamp ≤ b.timestamp))

/-! ## Signal synthesizer -/

/-- The rule table of `generateTradingSignal`, producing the reasons list and
the signed pre-clamp confidence score.  Every "latest value" is read with the
JavaScript semantics: reading past the end of an array yields `undefined`
and any comparison against `undefined`/`NaN` is false. -/
def signalParts (sq : ℚ → ℚ) (data : List TokenData) (latestPrice : ℚ) :
    List String × ℤ :=
  let rsi := calculateRSI data 14
  let ema := calculateEMA data 50
  let macd := calculateMACD data 12 26 9
  let bollingerBands := calculateBollingerBands sq data 20 2
  let obv := calculateOBV data
  let crosses := detectCrosses data 50 200
  let latestRSI := rsi.getLast?
  let latestEMA := ema.getLast?
  let latestMACD := macd.macdLine.getLast?.join
  let latestSignalLine := macd.signalLine.getLast?.join
  let latestUpperBand := bollingerBands.upperBand.getLast?
  let latestLowerBand := bollingerBands.lowerBand.getLast?
  let p1 : List String × ℤ :=
    if jsLt latestRSI (some 30) then (["RSI indicates oversold condition"], 20)
    else if jsGt latestRSI (some 70) then (["RSI indicates overbought condition"], -20)
    else (["RSI indicates steady condition"], 0)
  let p2 : List String × ℤ :=
    if jsGt (some latestPrice) latestEMA then (["Price is above EMA50, bullish trend"], 15)
    else (["Price is below EMA50, bearish trend"], -15)
  let p3 : List String × ℤ :=
    if jsGt latestMACD latestSignalLine then (["MACD shows bullish momentum"], 25)
    else (["MACD shows bearish momentum"], -25)
  let p4 : List String × ℤ :=
    if jsLe (some latestPrice) latestLowerBand then
      (["Price near lower Bollinger Band, potential buy signal"], 20)
    else if jsGe (some latestPrice) latestUpperBand then
      (["Price near upper Bollinger Band, potential sell signal"], -20)
    else (["Bollinger Band indicates steady condition"], 0)
  let obvSlope := jsSub (jsIdx obv ((obv.length : ℤ) - 1)) (jsIdx obv ((obv.length : ℤ) - 2))
  let p5 : List String × ℤ :=
    if jsGt obvSlope (some 0) then (["Positive On-Balance Volume trend"], 20)
    else (["Negative On-Balance Volume trend"], -20)
  let p6 : List String × ℤ :=
    if crosses.1 then
      (["Golden Cross detected: Short-term EMA crossing above long-term EMA"], 30)
    else ([], 0)
  let p7 : List String × ℤ :=
    if crosses.2 then
      (["Death Cross detected: Short-term EMA crossing below long-term EMA"], -30)
    else ([], 0)
  (p1.1 ++ p2.1 ++ p3.1 ++ p4.1 ++ p5.1 ++ p6.1 ++ p7.1,
   p1.2 + p2.2 + p3.2 + p4.2 + p5.2 + p6.2 + p7.2)

/-- The signed confidence score accumulated by the rule table, before the
clamp to `[-100, 100]` and before taking the absolute value. -/
def confidenceScore (sq : ℚ → ℚ) (data : List TokenData) : ℤ :=
  (signalParts sq data ((data.getLast?).elim 0 (·.price))).2

/-- `generateTradingSignal()`: computes all indicators, applies the rule
table, maps the signed score to a recommendation, clamps the score to
`[-100, 100]` and reports its absolute value.  On an empty series the read
`this.data[this.data.length - 1].price` accesses a property of `undefined`
and throws a `TypeError`, modelled by `none`. -/
def generateTradingSignal (sq : ℚ → ℚ) (data : List TokenData) :
    Option StrategySignal :=
  match data.getLast? with
  | none => none
  | some lastObs =>
    let latestPrice := lastObs.price
    let parts := signalParts sq data latestPrice
    let confidence := parts.2
    let recommendation :=
      if confidence < -30 then Recommendation.SELL
      else if 30 < confidence then Recommendation.BUY
      else Recommendation.HOLD
    let clamped := min (max confidence (-100)) 100
    some ⟨latestPrice, recommendation, |clamped|, parts.1, detectCrosses data 50 200⟩

/-! ## Reference definitions written from the spec's words
(for comparison against the source definitions) -/

/-- Following the spec's words for the MACD line: "the two EMAs must be
aligned to a common index base before subtracting — implementers must
reconcile the differing starting offsets of the short/long EMA outputs".
The short EMA output starts at input index `shortPeriod - 1` and the long
one at `longPeriod - 1`, so the first `longPeriod - shortPeriod` short-EMA
outputs are dropped and each remaining pair subtracts values of the same
input index. -/
def macdLineAligned (data : List TokenData) (shortPeriod longPeriod : ℕ) : List ℚ :=
  let prices := data.map (·.price)
  let shortEMA := calculateExponentialMovingAverages prices shortPeriod
  let longEMA := calculateExponentialMovingAverages prices longPeriod
  List.zipWith (fun sEMA lEMA => sEMA - lEMA) (shortEMA.drop (longPeriod - shortPeriod)) longEMA

/-- Following the spec's words for the Bollinger middle band: "SMA over a
trailing window of `period` at each index (window = `[max(0, i-period+1), i]`,
so the first `period-1` points use a shrinking window rather than being
omitted)" — one value per input index. -/
def middleBandPerIndex (prices : List ℚ) (periods : ℕ) : List ℚ :=
  prices.enum.map (fun ip =>
    let subset := subsetAt prices periods ip.1
    subset.sum / (subset.length : ℚ))

/-! ## Concrete inputs used by witnesses and counterexamples -/

def demoSq : ℚ → ℚ := fun _ => 0

def idSq : ℚ → ℚ := fun q => q

def demoData : List TokenData := [⟨0, 1, 1⟩]

/-- The signal actually produced on `demoData` (computed from the code). -/
def demoSignal : StrategySignal :=
  ⟨1, Recommendation.HOLD, 0,
   ["RSI indicates overbought condition",
    "Price is above EMA50, bullish trend",
    "MACD shows bullish momentum",
    "Bollinger Band indicates steady condition",
    "Negative On-Balance Volume trend"],
   (false, false)⟩

/-- A constant-price series of 26 observations. -/
def constData26 : List TokenData :=
  (List.range 26).map (fun i => ⟨(i : ℤ), 1, 1⟩)

/-- A two-observation series with rising prices. -/
def data2 : List TokenData := [⟨0, 1, 1⟩, ⟨1, 2, 1⟩]

/-- A 21-observation series with prices 0, 1, ..., 20. -/
def data21 : List TokenData :=
  (List.range 21).map (fun i => ⟨(i : ℤ), (i : ℚ), 1⟩)

/-! ## Supporting lemmas -/

/- The Batteries rational-arithmetic kernels are irreducible by default,
which blocks `decide` on concrete rational computations. -/
attribute [local semireducible] Rat.add Rat.mul Rat.inv Rat.sub

lemma emaStep_length (alpha : ℚ) (l : List ℚ) : ∀ prev : ℚ,
    (emaStep alpha prev l).length = l.length := by
  induction l with
  | nil => intro prev; rfl
  | cons p rest ih => intro prev; simp [emaStep, ih]

lemma emaStep_getElem? (alpha : ℚ) (l : List ℚ) : ∀ (prev : ℚ) (j : ℕ), j < l.length →
    (emaStep alpha prev l)[j]? =
      some (l.getD j 0 * alpha + (prev :: emaStep alpha prev l).getD j 0 * (1 - alpha)) := by
  induction l with
  | nil => intro prev j h; simp at h
  | cons p rest ih =>
    intro prev j h
    cases j with
    | zero => simp [emaStep, List.getD]
    | succ j =>
      have hj : j < rest.length := by simpa using h
      simp only [emaStep, List.getElem?_cons_succ, List.getD_cons_succ]
      exact ih _ j hj

/-- The two crossover flags cannot both be true: the golden cross requires
the short EMA to be strictly above the long EMA at the latest point, the
death cross strictly below. -/
lemma detectCrosses_not_both (data : List TokenData) (sp lp : ℕ) :
    ((detectCrosses data sp lp).1 && (detectCrosses data sp lp).2) = false := by
  simp only [detectCrosses]
  split
  · rfl
  · simp
    intro _ h2 _
    exact h2.le

/-! ## Claims -/

/-- Claim C7: for every price series of length `n ≥ k` (and period `k ≥ 1`),
the EMA routine returns exactly `n - k + 1` values, the first being the sum
of the first `k` prices divided by `k` (the arithmetic mean of the first `k`
prices), and each subsequent value obeying
`EMA[i] = P[i] * alpha + EMA[i-1] * (1 - alpha)` with `alpha = 2 / (k + 1)`. -/
theorem ema_length_seed_recurrence (prices : List ℚ) (k : ℕ)
    (hk : 0 < k) (hn : k ≤ prices.length) :
    (calculateExponentialMovingAverages prices k).length = prices.length - k + 1 ∧
    (calculateExponentialMovingAverages prices k)[0]? =
      some ((prices.take k).sum / (k : ℚ)) ∧
    ∀ j, j + 1 < (calculateExponentialMovingAverages prices k).length →
      (calculateExponentialMovingAverages prices k)[j + 1]? =
        some (prices.getD (k + j) 0 * (2 / ((k : ℚ) + 1)) +
          (calculateExponentialMovingAverages prices k).getD j 0 *
            (1 - 2 / ((k : ℚ) + 1))) := by
  refine ⟨?_, ?_, ?_⟩
  · simp only [calculateExponentialMovingAverages, List.length_cons,
      emaStep_length, List.length_drop]
  · simp [calculateExponentialMovingAverages]
  · intro j hj
    have hj' : j < (prices.drop k).length := by
      simpa [calculateExponentialMovingAverages, emaStep_length] using hj
    simp only [calculateExponentialMovingAverages, List.getElem?_cons_succ]
    rw [emaStep_getElem? _ _ _ j hj']
    congr 2
    rw [List.getD_eq_getElem?_getD, List.getD_eq_getElem?_getD, List.getElem?_drop]

/-- Witness for the EMA claim at `k = 2`, `prices = [1, 2, 3]`. -/
theorem ema_length_seed_recurrence_witness :
    (calculateExponentialMovingAverages [1, 2, 3] 2).length = [(1 : ℚ), 2, 3].length - 2 + 1 ∧
    (calculateExponentialMovingAverages [1, 2, 3] 2)[0]? =
      some (([(1 : ℚ), 2, 3].take 2).sum / (2 : ℚ)) ∧
    ∀ j, j + 1 < (calculateExponentialMovingAverages [1, 2, 3] 2).length →
      (calculateExponentialMovingAverages [1, 2, 3] 2)[j + 1]? =
        some ([(1 : ℚ), 2, 3].getD (2 + j) 0 * (2 / ((2 : ℚ) + 1)) +
          (calculateExponentialMovingAverages [1, 2, 3] 2).getD j 0 *
            (1 - 2 / ((2 : ℚ) + 1))) :=
  ema_length_seed_recurrence [1, 2, 3] 2 (by decide) (by decide)

/-- Claim C8: the crossover detector reports a golden cross iff the short
EMA was at most the long EMA one step back and exceeds it now, a death cross
iff it was at least the long EMA one step back and is below it now — using
only the last two points of each EMA series — and it returns
`(false, false)` when either EMA series has fewer than two points. -/
theorem detectCrosses_characterization (data : List TokenData) (sp lp : ℕ) :
    ((emaOf data sp).length < 2 ∨ (emaOf data lp).length < 2 →
      detectCrosses data sp lp = (false, false)) ∧
    (2 ≤ (emaOf data sp).length → 2 ≤ (emaOf data lp).length →
      ((detectCrosses data sp lp).1 = true ↔
        ((emaOf data sp).getD ((emaOf data sp).length - 2) 0 ≤
            (emaOf data lp).getD ((emaOf data lp).length - 2) 0 ∧
          (emaOf data lp).getD ((emaOf data lp).length - 1) 0 <
            (emaOf data sp).getD ((emaOf data sp).length - 1) 0)) ∧
      ((detectCrosses data sp lp).2 = true ↔
        ((emaOf data lp).getD ((emaOf data lp).length - 2) 0 ≤
            (emaOf data sp).getD ((emaOf data sp).length - 2) 0 ∧
          (emaOf data sp).getD ((emaOf data sp).length - 1) 0 <
            (emaOf data lp).getD ((emaOf data lp).length - 1) 0))) := by
  constructor
  · intro h
    simp only [detectCrosses]
    rw [if_pos h]
  · intro h1 h2
    have hcond : ¬((emaOf data sp).length < 2 ∨ (emaOf data lp).length < 2) := by omega
    simp only [detectCrosses]
    rw [if_neg hcond]
    constructor <;> simp [Bool.and_eq_true, decide_eq_true_eq]

/-- Witness for the crossover-detector claim: the short-data branch on a
one-observation series, and the two-point branch at periods 1 on a
two-observation series. -/
theorem detectCrosses_characterization_witness :
    detectCrosses demoData 50 200 = (false, false) ∧
    (((detectCrosses data2 1 1).1 = true ↔
      ((emaOf data2 1).getD ((emaOf data2 1).length - 2) 0 ≤
          (emaOf data2 1).getD ((emaOf data2 1).length - 2) 0 ∧
        (emaOf data2 1).getD ((emaOf data2 1).length - 1) 0 <
          (emaOf data2 1).getD ((emaOf data2 1).length - 1) 0)) ∧
    ((detectCrosses data2 1 1).2 = true ↔
      ((emaOf data2 1).getD ((emaOf data2 1).length - 2) 0 ≤
          (emaOf data2 1).getD ((emaOf data2 1).length - 2) 0 ∧
        (emaOf data2 1).getD ((emaOf data2 1).length - 1) 0 <
          (emaOf data2 1).getD ((emaOf data2 1).length - 1) 0))) :=
  ⟨(detectCrosses_characterization demoData 50 200).1 (by decide),
   (detectCrosses_characterization data2 1 1).2 (by decide) (by decide)⟩

lemma smoothedStep_length (periods : ℕ) (l : List ℚ) : ∀ prev : ℚ,
    (smoothedStep periods prev l).length = l.length := by
  induction l with
  | nil => intro prev; rfl
  | cons v rest ih => intro prev; simp [smoothedStep, ih]

lemma calculateSmoothedMovingAverage_length (values : List ℚ) (periods : ℕ) :
    (calculateSmoothedMovingAverage values periods).length =
      1 + (values.length - periods) := by
  simp [calculateSmoothedMovingAverage, smoothedStep_length]
  omega

lemma smoothedStep_nonneg (periods : ℕ) (hp : 0 < periods) (l : List ℚ) :
    ∀ prev : ℚ, 0 ≤ prev → (∀ v ∈ l, 0 ≤ v) →
      ∀ x ∈ smoothedStep periods prev l, 0 ≤ x := by
  induction l with
  | nil => intro prev _ _ x hx; simp [smoothedStep] at hx
  | cons v rest ih =>
    intro prev hprev hl x hx
    have hv : 0 ≤ v := hl v (List.mem_cons_self v rest)
    have hper : (1 : ℚ) ≤ (periods : ℚ) := by exact_mod_cast hp
    have hcur : 0 ≤ (prev * ((periods : ℚ) - 1) + v) / (periods : ℚ) := by
      apply div_nonneg _ (by positivity)
      have : (0 : ℚ) ≤ (periods : ℚ) - 1 := by linarith
      positivity
    simp only [smoothedStep, List.mem_cons] at hx
    rcases hx with rfl | hx
    · exact hcur
    · exact ih _ hcur (fun w hw => hl w (List.mem_cons_of_mem v hw)) x hx

lemma calculateSmoothedMovingAverage_nonneg (values : List ℚ) (periods : ℕ)
    (hp : 0 < periods) (hv : ∀ v ∈ values, 0 ≤ v) :
    ∀ x ∈ calculateSmoothedMovingAverage values periods, 0 ≤ x := by
  have hseed : 0 ≤ (values.take periods).sum / (periods : ℚ) := by
    apply div_nonneg _ (by positivity)
    exact List.sum_nonneg (fun v hvt => hv v (List.take_subset periods values hvt))
  intro x hx
  simp only [calculateSmoothedMovingAverage, List.mem_cons] at hx
  rcases hx with rfl | hx
  · exact hseed
  · exact smoothedStep_nonneg periods hp _ _ hseed
      (fun w hw => hv w (List.drop_subset periods values hw)) x hx

/-- The single RSI rule applied to one smoothed gain/loss pair always lands
in `[0, 100]`. -/
lemma rsi_entry_bounds (ag al : ℚ) (hag : 0 ≤ ag) (hal : 0 ≤ al) :
    0 ≤ (if al = 0 then (100 : ℚ) else 100 - 100 / (1 + ag / al)) ∧
      (if al = 0 then (100 : ℚ) else 100 - 100 / (1 + ag / al)) ≤ 100 := by
  split_ifs with h
  · norm_num
  · have hal' : 0 < al := lt_of_le_of_ne hal (Ne.symm h)
    have hx : 0 ≤ ag / al := div_nonneg hag hal'.le
    have h1 : 0 < 100 / (1 + ag / al) := by positivity
    have h2 : 100 / (1 + ag / al) ≤ 100 := div_le_self (by norm_num) (by linarith)
    constructor <;> linarith

/-- Claim C6: for every series long enough to compute the RSI
(`periods < n`, default period 14), every RSI value lies in `[0, 100]`, and
the RSI value is exactly 100 at every index where the smoothed average loss
is exactly 0. -/
theorem rsi_bounds (data : List TokenData) (periods : ℕ)
    (hp : 0 < periods) (hlen : periods < data.length) :
    (∀ r ∈ calculateRSI data periods, 0 ≤ r ∧ r ≤ 100) ∧
    (∀ i : ℕ, (calculateSmoothedMovingAverage (rsiLosses (data.map (·.price))) periods)[i]? =
        some 0 →
      (calculateRSI data periods)[i]? = some 100) := by
  have hgains : ∀ v ∈ rsiGains (data.map (·.price)), 0 ≤ v := by
    intro v hv
    obtain ⟨c, _, rfl⟩ := List.mem_map.mp hv
    exact le_max_right c 0
  have hlosses : ∀ v ∈ rsiLosses (data.map (·.price)), 0 ≤ v := by
    intro v hv
    obtain ⟨c, _, rfl⟩ := List.mem_map.mp hv
    exact le_max_right (-c) 0
  constructor
  · intro r hr
    simp only [calculateRSI] at hr
    obtain ⟨n, hn⟩ := List.mem_iff_getElem?.mp hr
    rw [List.getElem?_zipWith] at hn
    rcases hag : (calculateSmoothedMovingAverage (rsiGains (data.map (·.price))) periods)[n]?
      with _ | ag <;> rw [hag] at hn
    · simp at hn
    rcases hal : (calculateSmoothedMovingAverage (rsiLosses (data.map (·.price))) periods)[n]?
      with _ | al <;> rw [hal] at hn
    · simp at hn
    simp only [Option.some.injEq] at hn
    subst hn
    exact rsi_entry_bounds ag al
      (calculateSmoothedMovingAverage_nonneg _ periods hp hgains ag (List.getElem?_mem hag))
      (calculateSmoothedMovingAverage_nonneg _ periods hp hlosses al (List.getElem?_mem hal))
  · intro i h0
    have hlen_eq :
        (calculateSmoothedMovingAverage (rsiGains (data.map (·.price))) periods).length =
        (calculateSmoothedMovingAverage (rsiLosses (data.map (·.price))) periods).length := by
      rw [calculateSmoothedMovingAverage_length, calculateSmoothedMovingAverage_length]
      simp [rsiGains, rsiLosses]
    have hi : i < (calculateSmoothedMovingAverage (rsiLosses (data.map (·.price)))
        periods).length := by
      by_contra hcon
      rw [List.getElem?_eq_none (by omega)] at h0
      exact Option.noConfusion h0
    have hi' : i < (calculateSmoothedMovingAverage (rsiGains (data.map (·.price)))
        periods).length := by omega
    simp only [calculateRSI]
    rw [List.getElem?_zipWith, List.getElem?_eq_getElem hi', h0]
    simp

/-- Witness for the RSI claim at period 1 on a two-observation series. -/
theorem rsi_bounds_witness :
    (∀ r ∈ calculateRSI data2 1, 0 ≤ r ∧ r ≤ 100) ∧
    (∀ i : ℕ, (calculateSmoothedMovingAverage (rsiLosses (data2.map (·.price))) 1)[i]? =
        some 0 →
      (calculateRSI data2 1)[i]? = some 100) :=
  rsi_bounds data2 1 (by decide) (by decide)

/-- On a strictly rising price path every OBV step adds a nonnegative
volume, so the running OBV values form a nondecreasing chain. -/
lemma obvStep_chain_incr : ∀ (rest : List TokenData) (prevObv prevPrice : ℚ),
    (∀ x ∈ rest, 0 ≤ x.volume) →
    List.Chain' (· < ·) (prevPrice :: rest.map (·.price)) →
    List.Chain' (· ≤ ·) (prevObv :: obvStep prevObv prevPrice rest) := by
  intro rest
  induction rest with
  | nil => intro prevObv prevPrice _ _; simp [obvStep]
  | cons d rest ih =>
    intro prevObv prevPrice hv hc
    rw [List.map_cons, List.chain'_cons] at hc
    have hpd : prevPrice < d.price := hc.1
    simp only [obvStep, if_pos hpd]
    rw [List.chain'_cons]
    constructor
    · have : 0 ≤ d.volume := hv d (List.mem_cons_self d rest)
      linarith
    · exact ih (prevObv + d.volume) d.price
        (fun x hx => hv x (List.mem_cons_of_mem d hx)) hc.2

/-- On a strictly falling price path every OBV step subtracts a nonnegative
volume, so the running OBV values form a nonincreasing chain. -/
lemma obvStep_chain_decr : ∀ (rest : List TokenData) (prevObv prevPrice : ℚ),
    (∀ x ∈ rest, 0 ≤ x.volume) →
    List.Chain' (fun a b => b < a) (prevPrice :: rest.map (·.price)) →
    List.Chain' (fun a b => b ≤ a) (prevObv :: obvStep prevObv prevPrice rest) := by
  intro rest
  induction rest with
  | nil => intro prevObv prevPrice _ _; simp [obvStep]
  | cons d rest ih =>
    intro prevObv prevPrice hv hc
    rw [List.map_cons, List.chain'_cons] at hc
    have hpd : d.price < prevPrice := hc.1
    simp only [obvStep, if_neg (not_lt.mpr hpd.le), if_pos hpd]
    rw [List.chain'_cons]
    constructor
    · have : 0 ≤ d.volume := hv d (List.mem_cons_self d rest)
      linarith
    · exact ih (prevObv - d.volume) d.price
        (fun x hx => hv x (List.mem_cons_of_mem d hx)) hc.2

/-- Claim C9: on a non-empty series whose volumes are all nonnegative, the
OBV sequence (the cumulative sum seeded with the first volume, adding the
volume on a price rise, subtracting it on a fall, carrying the value on
ties) is nondecreasing when prices strictly increase and nonincreasing when
they strictly decrease. -/
theorem obv_monotone (d : TokenData) (rest : List TokenData)
    (hvol : ∀ x ∈ d :: rest, 0 ≤ x.volume) :
    calculateOBV (d :: rest) = (obvList d rest).map some ∧
    (List.Chain' (fun a b => a.price < b.price) (d :: rest) →
      List.Chain' (· ≤ ·) (obvList d rest)) ∧
    (List.Chain' (fun a b => b.price < a.price) (d :: rest) →
      List.Chain' (fun a b => b ≤ a) (obvList d rest)) := by
  refine ⟨rfl, ?_, ?_⟩
  · intro hc
    have hc' : List.Chain' (· < ·) ((d :: rest).map (·.price)) :=
      (List.chain'_map (fun x : TokenData => x.price)).mpr hc
    rw [List.map_cons] at hc'
    exact obvStep_chain_incr rest d.volume d.price
      (fun x hx => hvol x (List.mem_cons_of_mem d hx)) hc'
  · intro hc
    have hc' : List.Chain' (fun a b => b < a) ((d :: rest).map (·.price)) :=
      (List.chain'_map (fun x : TokenData => x.price)).mpr hc
    rw [List.map_cons] at hc'
    exact obvStep_chain_decr rest d.volume d.price
      (fun x hx => hvol x (List.mem_cons_of_mem d hx)) hc'

/-- Witness for the OBV claim on a two-observation rising series. -/
theorem obv_monotone_witness :
    calculateOBV (⟨0, 1, 1⟩ :: [⟨1, 2, 1⟩]) = (obvList ⟨0, 1, 1⟩ [⟨1, 2, 1⟩]).map some ∧
    (List.Chain' (fun a b => a.price < b.price) ((⟨0, 1, 1⟩ : TokenData) :: [⟨1, 2, 1⟩]) →
      List.Chain' (· ≤ ·) (obvList ⟨0, 1, 1⟩ [⟨1, 2, 1⟩])) ∧
    (List.Chain' (fun a b => b.price < a.price) ((⟨0, 1, 1⟩ : TokenData) :: [⟨1, 2, 1⟩]) →
      List.Chain' (fun a b => b ≤ a) (obvList ⟨0, 1, 1⟩ [⟨1, 2, 1⟩])) :=
  obv_monotone ⟨0, 1, 1⟩ [⟨1, 2, 1⟩] (by decide)

/-- Claim C1 (code bug): the implementation pairs the two EMA outputs by raw
output index instead of aligning them to a common input-index base.  On a
26-point constant-price series the code's `macdLine` has 15 entries — entry
0 subtracts the long EMA at input index 25 from the short EMA at input
index 11, and entries 1 through 14 are `NaN` because `longEMA[i]` is read
past the end of the long EMA array — whereas the aligned MACD line of the
spec has a single entry.  The spec's `signalLine = EMA(macdLine, 9)` is then
fed these misaligned, partly-`NaN` values. -/
theorem macd_misaligned_on_constant_series :
    (calculateMACD constData26 12 26 9).macdLine ≠
      (macdLineAligned constData26 12 26).map some ∧
    (calculateMACD constData26 12 26 9).macdLine[1]? = some none ∧
    (calculateMACD constData26 12 26 9).macdLine.length = 15 ∧
    (macdLineAligned constData26 12 26).length = 1 :=
  ⟨by decide, by decide, by decide, by decide⟩

/-- Counterexample to claim C2 as stated: the claim requires the middle band
to carry one SMA value per input index, over the shrinking trailing window
`[max(0, i-period+1), i]`.  On a one-observation series the code's middle
band is empty (its loop starts at index `period - 1 = 19`), while the
claimed per-index middle band has one entry. -/
theorem bollinger_middle_band_not_per_index :
    (calculateBollingerBands idSq demoData 20 2).middleBand ≠
      middleBandPerIndex (pricesOf demoData) 20 := by decide

/-- Claim C2 (amended): the middle band has one value per FULL window — its
`j`-th entry is the SMA of `prices[j .. j+19]`, so it has `n - 19` entries
and the first 19 input indices are omitted; the standard-deviation array has
one entry per input index `i`, the square root of the population variance
of the shrinking trailing window ending at `i`; and the bands pair the
`j`-th middle-band value (whose window ends at input index `j + 19`) with
the standard deviation at input index `j` (whose window ends at `j`), i.e.
`upper[j] = middle[j] + 2 * stddev[j]` and
`lower[j] = middle[j] - 2 * stddev[j]` with mismatched windows. -/
theorem bollinger_actual_spec (sq : ℚ → ℚ) (data : List TokenData) :
    (calculateBollingerBands sq data 20 2).middleBand.length =
      (pricesOf data).length + 1 - 20 ∧
    (∀ j : ℕ, j < (calculateBollingerBands sq data 20 2).middleBand.length →
      (calculateBollingerBands sq data 20 2).middleBand[j]? =
        some ((((pricesOf data).drop j).take 20).sum / 20)) ∧
    (∀ i : ℕ, i < (pricesOf data).length →
      (bollingerStdDevs sq (pricesOf data) 20)[i]? =
        some (sq (populationVariance (subsetAt (pricesOf data) 20 i)))) ∧
    (∀ j : ℕ, j < (calculateBollingerBands sq data 20 2).middleBand.length →
      (calculateBollingerBands sq data 20 2).upperBand[j]? =
        some ((calculateBollingerBands sq data 20 2).middleBand.getD j 0 +
          sq (populationVariance (subsetAt (pricesOf data) 20 j)) * 2) ∧
      (calculateBollingerBands sq data 20 2).lowerBand[j]? =
        some ((calculateBollingerBands sq data 20 2).middleBand.getD j 0 -
          sq (populationVariance (subsetAt (pricesOf data) 20 j)) * 2)) := by
  have hmidlen : (calculateBollingerBands sq data 20 2).middleBand.length =
      (pricesOf data).length + 1 - 20 := by
    simp [calculateBollingerBands, calculateMovingAverage, pricesOf]
  have hmid : ∀ j : ℕ, j < (calculateBollingerBands sq data 20 2).middleBand.length →
      (calculateBollingerBands sq data 20 2).middleBand[j]? =
        some ((((pricesOf data).drop j).take 20).sum / 20) := by
    intro j hj
    rw [hmidlen] at hj
    have hj2 : j < data.length - 19 := by
      simp only [pricesOf, List.length_map] at hj
      omega
    simp [calculateBollingerBands, calculateMovingAverage, List.getElem?_range hj2, pricesOf]
  have hstd : ∀ i : ℕ, i < (pricesOf data).length →
      (bollingerStdDevs sq (pricesOf data) 20)[i]? =
        some (sq (populationVariance (subsetAt (pricesOf data) 20 i))) := by
    intro i hi
    simp [bollingerStdDevs, List.getElem?_eq_getElem hi]
  refine ⟨hmidlen, hmid, hstd, ?_⟩
  intro j hj
  have hjn : j < (pricesOf data).length := by
    rw [hmidlen] at hj
    omega
  have hmj := hmid j hj
  have hsj := hstd j hjn
  have hgetD : (calculateBollingerBands sq data 20 2).middleBand.getD j 0 =
      (((pricesOf data).drop j).take 20).sum / 20 := by
    rw [List.getD_eq_getElem?_getD, hmj]
    rfl
  constructor
  · show (List.zipWith (fun mb sd => mb + sd * 2)
      (calculateBollingerBands sq data 20 2).middleBand
      (bollingerStdDevs sq (pricesOf data) 20))[j]? = _
    rw [List.getElem?_zipWith, hmj, hsj, hgetD]
  · show (List.zipWith (fun mb sd => mb - sd * 2)
      (calculateBollingerBands sq data 20 2).middleBand
      (bollingerStdDevs sq (pricesOf data) 20))[j]? = _
    rw [List.getElem?_zipWith, hmj, hsj, hgetD]

/-- Witness for the amended Bollinger claim at output index 1 of a
21-observation series. -/
theorem bollinger_actual_spec_witness :
    (calculateBollingerBands idSq data21 20 2).middleBand[1]? =
      some ((((pricesOf data21).drop 1).take 20).sum / 20) ∧
    ((calculateBollingerBands idSq data21 20 2).upperBand[1]? =
      some ((calculateBollingerBands idSq data21 20 2).middleBand.getD 1 0 +
        idSq (populationVariance (subsetAt (pricesOf data21) 20 1)) * 2) ∧
     (calculateBollingerBands idSq data21 20 2).lowerBand[1]? =
      some ((calculateBollingerBands idSq data21 20 2).middleBand.getD 1 0 -
        idSq (populationVariance (subsetAt (pricesOf data21) 20 1)) * 2)) :=
  ⟨(bollinger_actual_spec idSq data21).2.1 1 (by decide),
   (bollinger_actual_spec idSq data21).2.2.2 1 (by decide)⟩

/-- The comparator of the normalizer is transitive. -/
lemma tsLE_trans : ∀ a b c : TokenData,
    decide (a.timestamp ≤ b.timestamp) → decide (b.timestamp ≤ c.timestamp) →
    decide (a.timestamp ≤ c.timestamp) := by
  intro a b c hab hbc
  simp only [decide_eq_true_eq] at *
  omega

/-- The comparator of the normalizer is total. -/
lemma tsLE_total : ∀ a b : TokenData,
    (decide (a.timestamp ≤ b.timestamp) || decide (b.timestamp ≤ a.timestamp)) = true := by
  intro a b
  simp only [Bool.or_eq_true, decide_eq_true_eq]
  exact le_total _ _

/-- Counterexample to claim C5 as stated: two permutations of the same
two-observation list with equal timestamps produce different normalizer
outputs, because the stable sort keeps ties in input order.  Hence the
output is not invariant under every permutation of a list that contains
timestamp ties. -/
theorem normalize_not_permutation_invariant :
    List.Perm [(⟨0, 2, 2⟩ : TokenData), ⟨0, 1, 1⟩] [⟨0, 1, 1⟩, ⟨0, 2, 2⟩] ∧
    normalizeData [⟨0, 2, 2⟩, ⟨0, 1, 1⟩] ≠ normalizeData [⟨0, 1, 1⟩, ⟨0, 2, 2⟩] := by
  constructor
  · exact List.Perm.swap _ _ _
  · have h1 : normalizeData [(⟨0, 2, 2⟩ : TokenData), ⟨0, 1, 1⟩] =
        [⟨0, 2, 2⟩, ⟨0, 1, 1⟩] := List.mergeSort_of_sorted (by decide)
    have h2 : normalizeData [(⟨0, 1, 1⟩ : TokenData), ⟨0, 2, 2⟩] =
        [⟨0, 1, 1⟩, ⟨0, 2, 2⟩] := List.mergeSort_of_sorted (by decide)
    rw [h1, h2]
    decide

/-- Claim C5 (amended): the normalizer output is a permutation of its input,
sorted by timestamp ascending, and stable — the elements carrying any given
timestamp appear in exactly their input order; moreover the output is
invariant under permutations of the input whenever the timestamps are
pairwise distinct (with ties, stability makes distinct input orders
observable). -/
theorem normalize_sorted_stable (l l' : List TokenData) :
    List.Perm (normalizeData l) l ∧
    List.Pairwise (fun a b => a.timestamp ≤ b.timestamp) (normalizeData l) ∧
    (∀ t : ℤ, (normalizeData l).filter (fun d => decide (d.timestamp = t)) =
      l.filter (fun d => decide (d.timestamp = t))) ∧
    (List.Perm l' l → (l.map (·.timestamp)).Nodup →
      normalizeData l' = normalizeData l) := by
  refine ⟨List.mergeSort_perm l _, ?_, ?_, ?_⟩
  · exact (List.sorted_mergeSort tsLE_trans tsLE_total l).imp
      (fun h => by simpa using h)
  · intro t
    have hpair : (l.filter (fun d => decide (d.timestamp = t))).Pairwise
        (fun a b => decide (a.timestamp ≤ b.timestamp)) := by
      apply List.pairwise_of_forall_mem_list
      intro a ha b hb
      have ha' : a.timestamp = t := by simpa using (List.mem_filter.mp ha).2
      have hb' : b.timestamp = t := by simpa using (List.mem_filter.mp hb).2
      simp [ha', hb']
    have hsub : List.Sublist (l.filter (fun d => decide (d.timestamp = t)))
        (l.mergeSort (fun a b => decide (a.timestamp ≤ b.timestamp))) :=
      List.sublist_mergeSort tsLE_trans tsLE_total hpair (List.filter_sublist l)
    have hsub2 : List.Sublist (l.filter (fun d => decide (d.timestamp = t)))
        ((l.mergeSort (fun a b => decide (a.timestamp ≤ b.timestamp))).filter
          (fun d => decide (d.timestamp = t))) := by
      have h2 := hsub.filter (fun d => decide (d.timestamp = t))
      rwa [List.filter_eq_self.mpr (fun a ha => (List.mem_filter.mp ha).2)] at h2
    have hperm := (List.mergeSort_perm l
        (fun a b => decide (a.timestamp ≤ b.timestamp))).filter
        (fun d => decide (d.timestamp = t))
    exact (hsub2.eq_of_length hperm.length_eq.symm).symm
  · intro hp hnd
    have hperm : List.Perm (normalizeData l') (normalizeData l) :=
      ((List.mergeSort_perm l' _).trans hp).trans (List.mergeSort_perm l _).symm
    have hlt : ∀ m : List TokenData, List.Perm m l →
        List.Pairwise (fun a b : TokenData => a.timestamp ≤ b.timestamp) (normalizeData m) →
        List.Pairwise (fun a b : TokenData => a.timestamp < b.timestamp) (normalizeData m) := by
      intro m hm hle
      have hnd' : ((normalizeData m).map (·.timestamp)).Nodup :=
        (((List.mergeSort_perm m _).trans hm).map (·.timestamp)).nodup_iff.mpr hnd
      have hne : (normalizeData m).Pairwise
          (fun a b : TokenData => a.timestamp ≠ b.timestamp) :=
        List.pairwise_map.mp hnd'
      exact (hle.and hne).imp (fun h => lt_of_le_of_ne h.1 h.2)
    have hsort : List.Pairwise (fun a b : TokenData => a.timestamp ≤ b.timestamp)
        (normalizeData l) :=
      (List.sorted_mergeSort tsLE_trans tsLE_total l).imp (fun h => by simpa using h)
    have hsort' : List.Pairwise (fun a b : TokenData => a.timestamp ≤ b.timestamp)
        (normalizeData l') :=
      (List.sorted_mergeSort tsLE_trans tsLE_total l').imp (fun h => by simpa using h)
    haveI : IsAntisymm TokenData (fun a b => a.timestamp < b.timestamp) :=
      ⟨fun a b h1 h2 => ((lt_asymm h1) h2).elim⟩
    exact List.eq_of_perm_of_sorted hperm
      (hlt l' hp hsort') (hlt l List.Perm.rfl hsort)

/-- Witness for the amended normalizer claim: a permuted two-observation
list with distinct timestamps normalizes to the same sorted output. -/
theorem normalize_sorted_stable_witness :
    List.Perm (normalizeData [(⟨1, 1, 1⟩ : TokenData), ⟨0, 2, 2⟩]) [⟨1, 1, 1⟩, ⟨0, 2, 2⟩] ∧
    List.Pairwise (fun a b => a.timestamp ≤ b.timestamp)
      (normalizeData [(⟨1, 1, 1⟩ : TokenData), ⟨0, 2, 2⟩]) ∧
    (∀ t : ℤ, (normalizeData [(⟨1, 1, 1⟩ : TokenData), ⟨0, 2, 2⟩]).filter
        (fun d => decide (d.timestamp = t)) =
      [(⟨1, 1, 1⟩ : TokenData), ⟨0, 2, 2⟩].filter (fun d => decide (d.timestamp = t))) ∧
    normalizeData [(⟨0, 2, 2⟩ : TokenData), ⟨1, 1, 1⟩] =
      normalizeData [(⟨1, 1, 1⟩ : TokenData), ⟨0, 2, 2⟩] := by
  have h := normalize_sorted_stable [(⟨1, 1, 1⟩ : TokenData), ⟨0, 2, 2⟩]
    [(⟨0, 2, 2⟩ : TokenData), ⟨1, 1, 1⟩]
  exact ⟨h.1, h.2.1, h.2.2.1, h.2.2.2 (List.Perm.swap _ _ _) (by decide)⟩

/-- Counterexample to claim C3 as stated: on the empty observation list the
signal generator does not return a record — the read
`this.data[this.data.length - 1].price` accesses a property of `undefined`
and throws a `TypeError` instead of producing a degenerate numeric value. -/
theorem generateTradingSignal_empty_throws :
    generateTradingSignal demoSq [] = none := rfl

/-- Claim C3 (amended): for every NON-EMPTY observation list, generating the
trading signal raises no error and returns a signal record (whose confidence
is an integer, hence numeric); the empty list is the sole exception, where a
`TypeError` is thrown. -/
theorem generateTradingSignal_total (sq : ℚ → ℚ) (data : List TokenData)
    (h : data ≠ []) : (generateTradingSignal sq data).isSome = true := by
  obtain ⟨x, hx⟩ := Option.isSome_iff_exists.mp (List.getLast?_isSome.mpr h)
  simp [generateTradingSignal, hx]

/-- Witness: on a one-observation list the generator returns a record. -/
theorem generateTradingSignal_total_witness :
    (generateTradingSignal demoSq demoData).isSome = true :=
  generateTradingSignal_total demoSq demoData (by decide)

/-- Claim C4: whenever a signal record is produced, its reported confidence
lies in `[0, 100]` (the signed score clamped to `[-100, 100]`, then reported
as an absolute value), and the recommendation is `BUY` iff the pre-clamp
signed score exceeds 30, `SELL` iff it is below -30, and `HOLD` otherwise. -/
theorem signal_confidence_spec (sq : ℚ → ℚ) (data : List TokenData)
    (s : StrategySignal) (h : generateTradingSignal sq data = some s) :
    s.confidence = |min (max (confidenceScore sq data) (-100)) 100| ∧
    (0 ≤ s.confidence ∧ s.confidence ≤ 100) ∧
    (s.recommendation = Recommendation.BUY ↔ 30 < confidenceScore sq data) ∧
    (s.recommendation = Recommendation.SELL ↔ confidenceScore sq data < -30) ∧
    (s.recommendation = Recommendation.HOLD ↔
      (-30 ≤ confidenceScore sq data ∧ confidenceScore sq data ≤ 30)) := by
  cases hd : data.getLast? with
  | none => simp [generateTradingSignal, hd] at h
  | some lastObs =>
    have hcs : confidenceScore sq data = (signalParts sq data lastObs.price).2 := by
      simp [confidenceScore, hd]
    simp only [generateTradingSignal, hd, Option.some.injEq] at h
    subst h
    rw [hcs]
    set c : ℤ := (signalParts sq data lastObs.price).2 with hc
    refine ⟨rfl, ⟨abs_nonneg _, ?_⟩, ?_, ?_, ?_⟩
    · show |min (max c (-100)) 100| ≤ 100
      exact abs_le.mpr ⟨le_min (le_max_right _ _) (by norm_num), min_le_right _ _⟩
    · show (if c < -30 then Recommendation.SELL
        else if 30 < c then Recommendation.BUY else Recommendation.HOLD) =
          Recommendation.BUY ↔ 30 < c
      split_ifs with h1 h2 <;> simp <;> omega
    · show (if c < -30 then Recommendation.SELL
        else if 30 < c then Recommendation.BUY else Recommendation.HOLD) =
          Recommendation.SELL ↔ c < -30
      split_ifs with h1 h2 <;> simp <;> omega
    · show (if c < -30 then Recommendation.SELL
        else if 30 < c then Recommendation.BUY else Recommendation.HOLD) =
          Recommendation.HOLD ↔ (-30 ≤ c ∧ c ≤ 30)
      split_ifs with h1 h2 <;> simp <;> omega

/-- Witness for the confidence claim on the one-observation series, whose
signal record is `demoSignal` with score 0 and recommendation `HOLD`. -/
theorem signal_confidence_spec_witness :
    demoSignal.confidence = |min (max (confidenceScore demoSq demoData) (-100)) 100| ∧
    (0 ≤ demoSignal.confidence ∧ demoSignal.confidence ≤ 100) ∧
    (demoSignal.recommendation = Recommendation.BUY ↔ 30 < confidenceScore demoSq demoData) ∧
    (demoSignal.recommendation = Recommendation.SELL ↔ confidenceScore demoSq demoData < -30) ∧
    (demoSignal.recommendation = Recommendation.HOLD ↔
      (-30 ≤ confidenceScore demoSq demoData ∧ confidenceScore demoSq demoData ≤ 30)) :=
  signal_confidence_spec demoSq demoData demoSignal (by decide)

/-- Claim C10: the two crossover flags are mutually exclusive, both as
returned by the crossover detector and inside every signal record produced
by the signal generator. -/
theorem crossSignals_mutually_exclusive (data : List TokenData) (sp lp : ℕ)
    (sq : ℚ → ℚ) (data' : List TokenData) :
    ((detectCrosses data sp lp).1 && (detectCrosses data sp lp).2) = false ∧
    Option.all (fun s => !(s.crossSignals.1 && s.crossSignals.2))
      (generateTradingSignal sq data') = true := by
  refine ⟨detectCrosses_not_both data sp lp, ?_⟩
  cases hd : data'.getLast? with
  | none => simp [generateTradingSignal, hd]
  | some lastObs =>
    simp [generateTradingSignal, hd, Option.all, detectCrosses_not_both]

end TokenAnalyzer
